import Mathlib

/- Shallow embedding of deploy.py, a CLI that deploys an application to AWS
Elastic Beanstalk.  The script ensures the application exists, builds the
project with an external build tool, packages the located artifact together
with fixed descriptor files into a zip archive, uploads the archive to S3,
registers an application version, waits for the target environment to reach a
quiescent status, and then either creates or updates the environment.

The embedding turns each externally visible API call of the script into an
explicit Event, and models the whole run as a function from the inputs the
script consumes (CLI arguments, AWS query results, the file system glob
result, the clock, the build outcome) to the list of emitted events.  The
polling loop is given explicit fuel; exhausting the fuel models the loop
still running. -/

/- Path helpers modelling the Python standard library functions used by the
script: posixpath.basename, posixpath.splitext and posixpath.normpath, all on
the POSIX convention (separator is the slash character, no drive letters). -/

/-- Splitting of a character list at every slash, as Python str.split with a
one character separator: empty groups are kept. -/
def splitSlash : List Char → List (List Char)
  | [] => [[]]
  | c :: cs =>
    if c = '/' then [] :: splitSlash cs
    else
      match splitSlash cs with
      | [] => [[c]]
      | g :: gs => (c :: g) :: gs

/-- Joining of groups with a slash between them, as Python sep.join. -/
def joinSlash : List (List Char) → List Char
  | [] => []
  | [g] => g
  | g :: gs => g ++ '/' :: joinSlash gs

/-- Processing of one path component inside posixpath.normpath: empty and dot
components are dropped, a dotdot component pops the accumulator except at the
start of a relative path or after another dotdot. -/
def normStep (initSlashes : Nat) (acc : List (List Char)) (comp : List Char) :
    List (List Char) :=
  if comp = [] ∨ comp = ['.'] then acc
  else if comp ≠ ['.', '.'] ∨ (initSlashes = 0 ∧ acc = []) ∨
      (acc ≠ [] ∧ acc.getLast? = some ['.', '.']) then
    acc ++ [comp]
  else if acc ≠ [] then acc.dropLast
  else acc

/-- Model of posixpath.normpath. -/
def pyNormpath (p : String) : String :=
  let cs := p.toList
  let initSlashes : Nat :=
    if cs.take 1 = ['/'] then
      (if cs.take 2 = ['/', '/'] ∧ cs.take 3 ≠ ['/', '/', '/'] then 2 else 1)
    else 0
  let comps := (splitSlash cs).foldl (normStep initSlashes) []
  let res := List.replicate initSlashes '/' ++ joinSlash comps
  if res = [] then String.mk ['.'] else String.mk res

/-- Model of the arcname computation of zipfile.ZipFile.write when no arcname
is given: the file name is normalized and leading slashes are removed. -/
def zipArcname (p : String) : String :=
  String.mk ((pyNormpath p).toList.dropWhile (fun c => c = '/'))

/-- Index of the last occurrence of a character, as Python str.rfind. -/
def lastIdxOf (cs : List Char) (c : Char) : Option Nat :=
  (cs.reverse.findIdx? (fun x => x = c)).map (fun i => cs.length - 1 - i)

/-- Model of posixpath.basename: everything after the last slash. -/
def pyBasename (p : String) : String :=
  match lastIdxOf p.toList '/' with
  | none => p
  | some i => String.mk (p.toList.drop (i + 1))

/-- Model of the root part of posixpath.splitext: the extension is cut at the
last dot of the final component, provided a character other than a dot stands
before that dot inside the component. -/
def pySplitextRoot (p : String) : String :=
  let cs := p.toList
  match lastIdxOf cs '.' with
  | none => p
  | some d =>
    let fnameIdx : Nat :=
      match lastIdxOf cs '/' with
      | none => 0
      | some i => i + 1
    if fnameIdx < d ∧ ((cs.drop fnameIdx).take (d - fnameIdx)).any (fun c => c ≠ '.') then
      String.mk (cs.take d)
    else p

/- Clock model.  The script formats the current time with
time.strftime('%Y%m%d-%H%M%S'); with no explicit time tuple Python documents
that strftime formats the value of localtime(), that is the LOCAL time of the
process, not UTC.  The clock therefore carries both readings so that the two
can be compared. -/

/-- Broken down time value, as the fields of a Python struct_time. -/
structure Tm where
  year : Nat
  month : Nat
  day : Nat
  hour : Nat
  minute : Nat
  second : Nat
  deriving DecidableEq, Repr

/-- Zero padded decimal rendering of a number to a given width. -/
def zeroPad (w n : Nat) : String :=
  let ds := Nat.toDigits 10 n
  String.mk (List.replicate (w - ds.length) '0' ++ ds)

/-- Rendering of a time value in the strftime format %Y%m%d-%H%M%S. -/
def fmtYmdHMS (t : Tm) : String :=
  zeroPad 4 t.year ++ zeroPad 2 t.month ++ zeroPad 2 t.day ++ "-" ++
    zeroPad 2 t.hour ++ zeroPad 2 t.minute ++ zeroPad 2 t.second

/-- Clock state of one run, carrying the local and the UTC reading of the
same instant. -/
structure Clock where
  localTm : Tm
  utcTm : Tm
  deriving DecidableEq, Repr

/-- Model of the call time.strftime('%Y%m%d-%H%M%S') at line 89 of the
script: with no time argument Python strftime formats the local time. -/
def time_strftime_YmdHMS (c : Clock) : String :=
  fmtYmdHMS c.localTm

/- Module level variables of deploy.py, lines 12 to 15. -/

def build_path : String := "./build"

def application_path : String := build_path ++ "/libs"

def elasticbeanstalk_files_list : List String :=
  ["./Dockerrun.aws.json", "./Dockerfile", "env.yaml"]

def source_bundle_s3_bucket_prefix : String := "elasticbeanstalk"

/- Error model: a run of the script can die on an uncaught Python exception.
The script itself defines no exception class; indexing an empty glob result
raises IndexError.  The artifactNotFound constructor exists only to state the
specification claim that names an ArtifactNotFoundError, so that it can be
compared with what the code actually raises. -/

/-- Decidable equality of Except results, used to evaluate the embedding on
concrete inputs. -/
instance (ε α : Type) [DecidableEq ε] [DecidableEq α] : DecidableEq (Except ε α) :=
  fun x y =>
    match x, y with
    | Except.ok a, Except.ok b =>
      if h : a = b then Decidable.isTrue (by rw [h])
      else Decidable.isFalse (by intro hc; cases hc; exact h rfl)
    | Except.error a, Except.error b =>
      if h : a = b then Decidable.isTrue (by rw [h])
      else Decidable.isFalse (by intro hc; cases hc; exact h rfl)
    | Except.ok _, Except.error _ => Decidable.isFalse (by intro hc; cases hc)
    | Except.error _, Except.ok _ => Decidable.isFalse (by intro hc; cases hc)

/-- Uncaught exception kinds relevant to the embedded run. -/
inductive PyError where
  | indexError
  | artifactNotFound
  deriving DecidableEq, Repr

/-- Result of package_application: the package name that is reused as the
version label, the new value of the module level file list after the call,
and the names of the entries written into the archive. -/
structure PackageResult where
  pkgName : String
  newFilesList : List String
  zipEntries : List String
  deriving DecidableEq, Repr

/-- Model of package_application, lines 85 to 94.  The glob result for
application_path slash star dot jar is an input; the function takes the
current value of the module level file list, appends the located artifact to
it, derives the package name from the artifact base name and the clock, and
zips every file of the (mutated) list. -/
def package_application (files_list : List String) (globResult : List String)
    (clock : Clock) : Except PyError PackageResult :=
  match globResult with
  | [] => Except.error PyError.indexError
  | app_file :: _ =>
    let files2 := files_list ++ [app_file]
    let app_name := pySplitextRoot (pyBasename app_file)
    let app_ver_pkg_name := app_name ++ "-" ++ time_strftime_YmdHMS clock
    Except.ok ⟨app_ver_pkg_name, files2, files2.map zipArcname⟩

/- Event model of the externally visible actions of a run. -/

/-- Externally visible actions of the script, in the order they can be
emitted. -/
inductive Event where
  | describeApplications (name : String)
  | createApplication (name desc : String)
  | runBuild (out err : String) (exitCode : Int)
  | zipArchive (zipName : String) (entries : List String)
  | createBucket (name : String)
  | putObject (bucket key : String)
  | createApplicationVersion (app ver bucket key : String)
  | sleep (secs : Nat)
  | describeEnvironments (app env : String)
  | printWaiting
  | createEnvironment (app env desc cname ver : String)
  | updateEnvironment (app env ver : String)
  deriving DecidableEq, Repr

/-- One entry of the Environments list returned by describe_environments; the
script only consults the Status field. -/
structure EnvDesc where
  status : String
  deriving DecidableEq, Repr

/-- Outcome of the external gradlew build subprocess: the captured output
streams and the exit code of the process. -/
structure BuildResult where
  out : String
  err : String
  exitCode : Int
  deriving DecidableEq, Repr

/-- Inputs a run of the script consumes: CLI arguments, the AWS query
results, the glob result, the clock, the build outcome, and the stream of
environment descriptions successive polls observe. -/
structure Input where
  appName : String
  envSuffix : String
  applications : List String
  buildRes : BuildResult
  jarFiles : List String
  clock : Clock
  region : String
  account : String
  bucketExists : Bool
  envObs : Nat → List EnvDesc

/-- Full environment name, line 164: application name, dash, suffix. -/
def environment_name (inp : Input) : String :=
  inp.appName ++ "-" ++ inp.envSuffix

/-- Model of upload_application_version, lines 99 to 114: derives the bucket
name from the fixed prefix, the region and the account id, creates the bucket
only when it does not already exist, then puts the archive object.  Returns
the bucket name together with the emitted events. -/
def upload_application_version (region account : String) (bucketExists : Bool)
    (pkg : String) : String × List Event :=
  let s3_bucket := source_bundle_s3_bucket_prefix ++ "-" ++ region ++ "-" ++ account
  (s3_bucket,
    (if bucketExists then [] else [Event.createBucket s3_bucket]) ++
      [Event.putObject s3_bucket (pkg ++ ".zip")])

/-- Loop condition of the wait loop, line 169: the Environments list is non
empty and the first Status is neither Ready nor Terminated. -/
def inProgress : List EnvDesc → Bool
  | [] => false
  | e :: _ => (e.status != "Ready") && (e.status != "Terminated")

/-- Model of the wait loop, lines 168 to 174, with explicit fuel: while the
observed description is in progress, the one time waiting notice is printed
on the first such observation, the script sleeps thirty seconds and polls
again.  Returns the emitted events and the index of the first quiescent
observation, or none when the fuel runs out with the loop still running. -/
def waitLoopAux (app env : String) (obs : Nat → List EnvDesc) (printed : Bool)
    (k fuel : Nat) : Option (List Event × Nat) :=
  if inProgress (obs k) then
    match fuel with
    | 0 => none
    | Nat.succ f =>
      match waitLoopAux app env obs true (k + 1) f with
      | none => none
      | some (evs, idx) =>
        some ((if printed then [] else [Event.printWaiting]) ++
          Event.sleep 30 :: Event.describeEnvironments app env :: evs, idx)
  else some ([], k)

/-- Create versus update decision, lines 176 to 191: when the Environments
list is empty or the first Status is Terminated the environment is created
with a CNAME prefix equal to the full environment name, otherwise it is
updated; both calls carry the version label. -/
def envDecision (app env ver : String) : List EnvDesc → Event
  | [] => Event.createEnvironment app env (env ++ " Environment") env ver
  | e :: _ =>
    if e.status = "Terminated" then
      Event.createEnvironment app env (env ++ " Environment") env ver
    else Event.updateEnvironment app env ver

/-- Events of the run up to and including the build step, lines 129 to 140:
the application existence query, the conditional create_application with the
fixed description, then the build subprocess. -/
def preEvents (inp : Input) : List Event :=
  Event.describeApplications inp.appName ::
    ((if inp.applications.isEmpty then
        [Event.createApplication inp.appName (inp.appName ++ " Application")]
      else []) ++
      [Event.runBuild inp.buildRes.out inp.buildRes.err inp.buildRes.exitCode])

/-- Events from successful packaging up to the initial environment query,
lines 142 to 167: the archive write, the upload, the version registration,
the ten second grace sleep, and the first describe_environments call. -/
def postPkgEvents (inp : Input) (pr : PackageResult) : List Event :=
  Event.zipArchive (pr.pkgName ++ ".zip") pr.zipEntries ::
    ((upload_application_version inp.region inp.account inp.bucketExists pr.pkgName).2 ++
      [Event.createApplicationVersion inp.appName pr.pkgName
        (upload_application_version inp.region inp.account inp.bucketExists pr.pkgName).1
        (pr.pkgName ++ ".zip"),
      Event.sleep 10,
      Event.describeEnvironments inp.appName (environment_name inp)])

/-- Model of the whole run of the script.  The result is none when the wait
loop is still running after the given fuel; otherwise it is the list of
emitted events together with the uncaught exception that ended the run, if
any.  The build exit code is recorded in its event but, exactly as in the
source, never consulted. -/
def mainRun (inp : Input) (fuel : Nat) : Option (List Event × Option PyError) :=
  match package_application elasticbeanstalk_files_list inp.jarFiles inp.clock with
  | Except.error e => some (preEvents inp, some e)
  | Except.ok pr =>
    match waitLoopAux inp.appName (environment_name inp) inp.envObs false 0 fuel with
    | none => none
    | some (evs, idx) =>
      some (preEvents inp ++ postPkgEvents inp pr ++ evs ++
        [envDecision inp.appName (environment_name inp) pr.pkgName (inp.envObs idx)],
        none)

/- Boolean detectors over events, used to state trace properties. -/

def isCreateAppB : Event → Bool
  | Event.createApplication _ _ => true
  | _ => false

def isCreateAppVersionB : Event → Bool
  | Event.createApplicationVersion _ _ _ _ => true
  | _ => false

def isCreateEnvB : Event → Bool
  | Event.createEnvironment _ _ _ _ _ => true
  | _ => false

def isUpdateEnvB : Event → Bool
  | Event.updateEnvironment _ _ _ => true
  | _ => false

/-- Detector of the two environment mutating calls. -/
def isEnvMutationB (e : Event) : Bool :=
  isCreateEnvB e || isUpdateEnvB e

def isSleepB : Event → Bool
  | Event.sleep _ => true
  | _ => false

def isWaitingB : Event → Bool
  | Event.printWaiting => true
  | _ => false

/-- Version label carried by an environment mutating event. -/
def eventVer : Event → Option String
  | Event.createEnvironment _ _ _ _ v => some v
  | Event.updateEnvironment _ _ v => some v
  | _ => none

/-- Status of the first environment description, when there is one. -/
def statusHead (o : List EnvDesc) : Option String :=
  o.head?.map EnvDesc.status

/-- Detector of the archive write. -/
def isZipArchiveB : Event → Bool
  | Event.zipArchive _ _ => true
  | _ => false

/-- Detector of the S3 object write. -/
def isPutObjectB : Event → Bool
  | Event.putObject _ _ => true
  | _ => false

/- Clean relative paths.  A path whose slash separated components are all non
empty and none of which is a dot or a dotdot component is left unchanged by
normpath, so such a path names the same relative location inside and outside
the archive. -/

/-- Well formedness of one path component: non empty, not dot, not dotdot. -/
def goodComp (c : List Char) : Bool :=
  decide (c ≠ []) && decide (c ≠ ['.']) && decide (c ≠ ['.', '.'])

/-- Well formedness of a relative path: every component is good. -/
def cleanRelPath (p : String) : Bool :=
  (splitSlash p.toList).all goodComp

/- Iterated packaging inside one process.  package_application appends the
located artifact to the module level file list, so the list grows across
calls; filesAfterCalls gives the value of the list after a number of calls,
each of which located the artifact of its call index, and callEntries gives
the archive entries the next call writes. -/

/-- Value of the module level file list after the given number of calls of
package_application in the same process. -/
def filesAfterCalls (artifacts : Nat → String) (clock : Clock) : Nat → List String
  | 0 => elasticbeanstalk_files_list
  | Nat.succ n =>
    match package_application (filesAfterCalls artifacts clock n) [artifacts n] clock with
    | Except.ok pr => pr.newFilesList
    | Except.error _ => filesAfterCalls artifacts clock n

/-- Entries of the archive written by the call made after the given number of
earlier calls in the same process. -/
def callEntries (artifacts : Nat → String) (clock : Clock) (n : Nat) : List String :=
  match package_application (filesAfterCalls artifacts clock n) [artifacts n] clock with
  | Except.ok pr => pr.zipEntries
  | Except.error _ => []

/- Concrete inputs used to evaluate the theorems below on closed instances. -/

def clockC5 : Clock := ⟨⟨2026, 10, 12, 5, 30, 0⟩, ⟨2026, 10, 12, 0, 0, 0⟩⟩

def clockC5w : Clock := ⟨⟨2026, 1, 2, 3, 4, 5⟩, ⟨2026, 1, 2, 8, 4, 5⟩⟩

def prC5w : PackageResult :=
  (package_application elasticbeanstalk_files_list ["./build/libs/app.jar"]
    clockC5w).toOption.getD ⟨"", [], []⟩

def clockC6 : Clock := ⟨⟨2026, 3, 4, 5, 6, 7⟩, ⟨2026, 3, 4, 5, 6, 7⟩⟩

def inpC7 : Input :=
  { appName := "demo", envSuffix := "env1", applications := ["demo"],
    buildRes := ⟨"", "gradle build failed", 1⟩,
    jarFiles := ["./build/libs/demo.jar"],
    clock := ⟨⟨2026, 10, 12, 7, 0, 0⟩, ⟨2026, 10, 12, 7, 0, 0⟩⟩,
    region := "us-east-1", account := "123456789012", bucketExists := true,
    envObs := fun _ => [⟨"Ready"⟩] }

def clockC2w : Clock := ⟨⟨2026, 2, 3, 4, 5, 6⟩, ⟨2026, 2, 3, 4, 5, 6⟩⟩

def inpC2w : Input :=
  { appName := "demo", envSuffix := "env1", applications := [],
    buildRes := ⟨"ok", "", 0⟩, jarFiles := ["./build/libs/demo.jar"],
    clock := clockC2w, region := "r1", account := "42", bucketExists := false,
    envObs := fun _ => [] }

def trC2w : List Event := ((mainRun inpC2w 1).getD ([], none)).1

def inpC3w : Input :=
  { appName := "demo", envSuffix := "env1", applications := ["demo"],
    buildRes := ⟨"ok", "", 0⟩, jarFiles := ["./build/libs/demo.jar"],
    clock := clockC2w, region := "r1", account := "42", bucketExists := true,
    envObs := fun _ => [⟨"Updating"⟩] }

def obsC4w : Nat → List EnvDesc := fun k => if k = 0 then [⟨"Updating"⟩] else [⟨"Ready"⟩]

def clockC9w : Clock := ⟨⟨2026, 4, 5, 6, 7, 8⟩, ⟨2026, 4, 5, 6, 7, 8⟩⟩

def prC9w : PackageResult :=
  (package_application elasticbeanstalk_files_list ["./" ++ "build/libs/demo-0.0.1.jar"]
    clockC9w).toOption.getD ⟨"", [], []⟩

def clockC10w : Clock := ⟨⟨2026, 5, 6, 7, 8, 9⟩, ⟨2026, 5, 6, 7, 8, 9⟩⟩

def artifactsW : Nat → String := fun _ => "./build/libs/app.jar"

/- Helper lemmas about the wait loop. -/

/-- Exits of the wait loop happen only at a quiescent observation. -/
theorem waitLoopAux_exit_quiescent (app env : String) (obs : Nat → List EnvDesc) :
    ∀ (fuel : Nat) (printed : Bool) (k : Nat) (evs : List Event) (idx : Nat),
      waitLoopAux app env obs printed k fuel = some (evs, idx) →
      inProgress (obs idx) = false := by
  intro fuel
  induction fuel with
  | zero =>
    intro printed k evs idx h
    by_cases hq : inProgress (obs k) = true
    · simp [waitLoopAux, hq] at h
    · simp [waitLoopAux, hq] at h
      obtain ⟨h1, h2⟩ := h
      rw [← h2]
      simpa using hq
  | succ f ih =>
    intro printed k evs idx h
    by_cases hq : inProgress (obs k) = true
    · simp only [waitLoopAux, hq, if_true] at h
      cases hrec : waitLoopAux app env obs true (k + 1) f with
      | none => rw [hrec] at h; simp at h
      | some pair =>
        obtain ⟨evs2, idx2⟩ := pair
        rw [hrec] at h
        simp at h
        obtain ⟨h1, h2⟩ := h
        rw [← h2]
        exact ih true (k + 1) evs2 idx2 hrec
    · simp [waitLoopAux, hq] at h
      obtain ⟨h1, h2⟩ := h
      rw [← h2]
      simpa using hq

/-- The wait loop never gives up: while every poll observes an in progress
status, no amount of fuel makes it exit. -/
theorem waitLoopAux_none_of_inProgress (app env : String) (obs : Nat → List EnvDesc)
    (hall : ∀ j, inProgress (obs j) = true) :
    ∀ (fuel : Nat) (printed : Bool) (k : Nat),
      waitLoopAux app env obs printed k fuel = none := by
  intro fuel
  induction fuel with
  | zero => intro printed k; simp [waitLoopAux, hall k]
  | succ f ih => intro printed k; simp [waitLoopAux, hall k, ih true (k + 1)]

/-- Events of the wait loop are only the waiting notice, the thirty second
sleep, and the environment poll. -/
theorem waitLoopAux_mem (app env : String) (obs : Nat → List EnvDesc) :
    ∀ (fuel : Nat) (printed : Bool) (k : Nat) (evs : List Event) (idx : Nat),
      waitLoopAux app env obs printed k fuel = some (evs, idx) →
      ∀ e ∈ evs, e = Event.printWaiting ∨ e = Event.sleep 30 ∨
        e = Event.describeEnvironments app env := by
  intro fuel
  induction fuel with
  | zero =>
    intro printed k evs idx h e he
    by_cases hq : inProgress (obs k) = true
    · simp [waitLoopAux, hq] at h
    · simp [waitLoopAux, hq] at h
      obtain ⟨rfl, rfl⟩ := h
      simp at he
  | succ f ih =>
    intro printed k evs idx h e he
    by_cases hq : inProgress (obs k) = true
    · simp only [waitLoopAux, hq, if_true] at h
      cases hrec : waitLoopAux app env obs true (k + 1) f with
      | none => rw [hrec] at h; simp at h
      | some pair =>
        obtain ⟨evs2, idx2⟩ := pair
        rw [hrec] at h
        simp only [Option.some.injEq, Prod.mk.injEq] at h
        obtain ⟨h1, rfl⟩ := h
        rw [← h1] at he
        rcases List.mem_append.mp he with hm | hm
        · by_cases hp : printed = true
          · simp [hp] at hm
          · simp [hp] at hm
            exact Or.inl hm
        · simp only [List.mem_cons] at hm
          rcases hm with rfl | rfl | hm
          · exact Or.inr (Or.inl rfl)
          · exact Or.inr (Or.inr rfl)
          · exact ih true (k + 1) evs2 idx2 hrec e hm
    · simp [waitLoopAux, hq] at h
      obtain ⟨rfl, rfl⟩ := h
      simp at he

/-- A loop entered with the notice already printed prints no further notice. -/
theorem waitLoopAux_count_printed (app env : String) (obs : Nat → List EnvDesc) :
    ∀ (fuel : Nat) (k : Nat) (evs : List Event) (idx : Nat),
      waitLoopAux app env obs true k fuel = some (evs, idx) →
      evs.countP isWaitingB = 0 := by
  intro fuel
  induction fuel with
  | zero =>
    intro k evs idx h
    by_cases hq : inProgress (obs k) = true
    · simp [waitLoopAux, hq] at h
    · simp [waitLoopAux, hq] at h
      obtain ⟨rfl, rfl⟩ := h
      rfl
  | succ f ih =>
    intro k evs idx h
    by_cases hq : inProgress (obs k) = true
    · simp only [waitLoopAux, hq, if_true] at h
      cases hrec : waitLoopAux app env obs true (k + 1) f with
      | none => rw [hrec] at h; simp at h
      | some pair =>
        obtain ⟨evs2, idx2⟩ := pair
        rw [hrec] at h
        simp only [Option.some.injEq, Prod.mk.injEq] at h
        obtain ⟨h1, rfl⟩ := h
        rw [← h1]
        simp only [if_true, List.nil_append, List.countP_cons]
        rw [ih (k + 1) evs2 idx2 hrec]
        rfl
    · simp [waitLoopAux, hq] at h
      obtain ⟨rfl, rfl⟩ := h
      rfl

/- Helper lemmas about the phases of the run. -/

/-- Events before packaging are neither environment mutations, nor sleeps,
nor version registrations, nor the waiting notice. -/
theorem preEvents_mem (inp : Input) :
    ∀ e ∈ preEvents inp, isEnvMutationB e = false ∧ isSleepB e = false ∧
      isCreateAppVersionB e = false ∧ isWaitingB e = false := by
  intro e he
  by_cases happ : inp.applications.isEmpty
  · simp [preEvents, happ] at he
    rcases he with rfl | rfl | rfl <;> exact ⟨rfl, rfl, rfl, rfl⟩
  · simp [preEvents, happ] at he
    rcases he with rfl | rfl <;> exact ⟨rfl, rfl, rfl, rfl⟩

/-- Count of create application calls before packaging: one exactly when the
application query came back empty. -/
theorem preEvents_countCreateApp (inp : Input) :
    (preEvents inp).countP isCreateAppB = (if inp.applications.isEmpty then 1 else 0) := by
  by_cases happ : inp.applications.isEmpty <;>
    simp [preEvents, happ, List.countP_cons, isCreateAppB]

/-- Events between packaging and the wait loop are neither environment
mutations, nor application creations, nor the waiting notice; their only
sleep is the ten second grace sleep. -/
theorem postPkgEvents_mem (inp : Input) (pr : PackageResult) :
    ∀ e ∈ postPkgEvents inp pr, isEnvMutationB e = false ∧ isCreateAppB e = false ∧
      isWaitingB e = false ∧ (isSleepB e = true → e = Event.sleep 10) := by
  intro e he
  by_cases hb : inp.bucketExists
  · simp [postPkgEvents, upload_application_version, hb] at he
    rcases he with rfl | rfl | rfl | rfl | rfl
    · exact ⟨rfl, rfl, rfl, fun hc => nomatch hc⟩
    · exact ⟨rfl, rfl, rfl, fun hc => nomatch hc⟩
    · exact ⟨rfl, rfl, rfl, fun hc => nomatch hc⟩
    · exact ⟨rfl, rfl, rfl, fun _ => rfl⟩
    · exact ⟨rfl, rfl, rfl, fun hc => nomatch hc⟩
  · simp [postPkgEvents, upload_application_version, hb] at he
    rcases he with rfl | rfl | rfl | rfl | rfl | rfl
    · exact ⟨rfl, rfl, rfl, fun hc => nomatch hc⟩
    · exact ⟨rfl, rfl, rfl, fun hc => nomatch hc⟩
    · exact ⟨rfl, rfl, rfl, fun hc => nomatch hc⟩
    · exact ⟨rfl, rfl, rfl, fun hc => nomatch hc⟩
    · exact ⟨rfl, rfl, rfl, fun _ => rfl⟩
    · exact ⟨rfl, rfl, rfl, fun hc => nomatch hc⟩

/-- The decision event is an environment mutation and nothing else, and it
carries the version label it was given. -/
theorem envDecision_shape (app env ver : String) (o : List EnvDesc) :
    isEnvMutationB (envDecision app env ver o) = true ∧
    isCreateAppB (envDecision app env ver o) = false ∧
    isCreateAppVersionB (envDecision app env ver o) = false ∧
    isSleepB (envDecision app env ver o) = false ∧
    isWaitingB (envDecision app env ver o) = false ∧
    eventVer (envDecision app env ver o) = some ver := by
  cases o with
  | nil => exact ⟨rfl, rfl, rfl, rfl, rfl, rfl⟩
  | cons e rest =>
    by_cases hs : e.status = "Terminated" <;>
      simp [envDecision, hs] <;>
      exact ⟨rfl, rfl, rfl, rfl, rfl, rfl⟩

/-- Case analysis of a finished run: either packaging failed and the run died
right after the build phase, or packaging succeeded, the wait loop exited at
some index, and the trace is the concatenation of the four phases followed by
the single decision event. -/
theorem mainRun_cases (inp : Input) (fuel : Nat) (tr : List Event) (err : Option PyError)
    (h : mainRun inp fuel = some (tr, err)) :
    (∃ e, package_application elasticbeanstalk_files_list inp.jarFiles inp.clock =
        Except.error e ∧ tr = preEvents inp ∧ err = some e) ∨
    (∃ pr evs idx,
      package_application elasticbeanstalk_files_list inp.jarFiles inp.clock = Except.ok pr ∧
      waitLoopAux inp.appName (environment_name inp) inp.envObs false 0 fuel = some (evs, idx) ∧
      tr = preEvents inp ++ postPkgEvents inp pr ++ evs ++
        [envDecision inp.appName (environment_name inp) pr.pkgName (inp.envObs idx)] ∧
      err = none) := by
  unfold mainRun at h
  cases hpkg : package_application elasticbeanstalk_files_list inp.jarFiles inp.clock with
  | error e =>
    rw [hpkg] at h
    simp only [Option.some.injEq, Prod.mk.injEq] at h
    obtain ⟨rfl, rfl⟩ := h
    exact Or.inl ⟨e, rfl, rfl, rfl⟩
  | ok pr =>
    rw [hpkg] at h
    cases hloop : waitLoopAux inp.appName (environment_name inp) inp.envObs false 0 fuel with
    | none => rw [hloop] at h; simp at h
    | some pair =>
      obtain ⟨evs, idx⟩ := pair
      rw [hloop] at h
      simp only [Option.some.injEq, Prod.mk.injEq] at h
      obtain ⟨rfl, rfl⟩ := h
      exact Or.inr ⟨pr, evs, idx, rfl, rfl, rfl, rfl⟩

/-- C1: at the create versus update decision, taken on a quiescent
observation, the branch is exhaustive and mutually exclusive over the three
quiescent observations: when the environment is absent or Terminated exactly
the create call fires, with a CNAME prefix equal to the full environment
name, when it is Ready exactly the update call fires, never both, and either
way the event carries the version label produced by packaging. -/
theorem C1_create_or_update_decision (app env ver : String) (o : List EnvDesc)
    (hq : inProgress o = false) :
    (statusHead o = none ∨ statusHead o = some "Terminated" ∨
      statusHead o = some "Ready") ∧
    ((statusHead o = none ∨ statusHead o = some "Terminated") →
      envDecision app env ver o =
        Event.createEnvironment app env (env ++ " Environment") env ver) ∧
    (statusHead o = some "Ready" →
      envDecision app env ver o = Event.updateEnvironment app env ver) ∧
    isCreateEnvB (envDecision app env ver o) =
      !isUpdateEnvB (envDecision app env ver o) ∧
    eventVer (envDecision app env ver o) = some ver := by
  cases o with
  | nil =>
    refine ⟨Or.inl rfl, fun _ => rfl, ?_, rfl, rfl⟩
    intro hr
    simp [statusHead] at hr
  | cons e rest =>
    have hst : e.status = "Ready" ∨ e.status = "Terminated" := by
      cases hR : e.status == "Ready" with
      | true => exact Or.inl (by simpa using hR)
      | false =>
        cases hT : e.status == "Terminated" with
        | true => exact Or.inr (by simpa using hT)
        | false =>
          exfalso
          simp [inProgress, bne, hR, hT] at hq
    rcases hst with hr | hr
    · refine ⟨Or.inr (Or.inr ?_), ?_, ?_, ?_, ?_⟩
      · simp [statusHead, hr]
      · intro hc
        rcases hc with hc | hc <;> simp [statusHead, hr] at hc
      · intro _
        simp [envDecision, hr]
      · simp [envDecision, hr, isCreateEnvB, isUpdateEnvB]
      · simp [envDecision, hr, eventVer]
    · refine ⟨Or.inr (Or.inl ?_), ?_, ?_, ?_, ?_⟩
      · simp [statusHead, hr]
      · intro _
        simp [envDecision, hr]
      · intro hc
        simp [statusHead, hr] at hc
      · simp [envDecision, hr, isCreateEnvB, isUpdateEnvB]
      · simp [envDecision, hr, eventVer]

/-- Witness for C1: on the concrete quiescent observation with Status
Terminated the decision is exactly the create environment call, with the
CNAME prefix equal to the full environment name. -/
theorem C1_create_or_update_decision_witness :
    envDecision "demo" "demo-env1" "demo-20260101-000000" [⟨"Terminated"⟩] =
      Event.createEnvironment "demo" "demo-env1" "demo-env1 Environment" "demo-env1"
        "demo-20260101-000000" :=
  (C1_create_or_update_decision "demo" "demo-env1" "demo-20260101-000000"
    [⟨"Terminated"⟩] (by decide)).2.1 (Or.inr (by decide))

/-- C2: in every run the create application call occurs exactly once when the
describe applications query returned an empty result, with the description
name Application, and zero times otherwise; and every create application call
precedes the create application version call. -/
theorem C2_ensure_application_once (inp : Input) (fuel : Nat) (tr : List Event)
    (err : Option PyError) (h : mainRun inp fuel = some (tr, err)) :
    tr.countP isCreateAppB = (if inp.applications.isEmpty then 1 else 0) ∧
    (inp.applications.isEmpty = true →
      Event.createApplication inp.appName (inp.appName ++ " Application") ∈ tr) ∧
    ∃ pre post, tr = pre ++ post ∧
      (∀ e ∈ pre, isCreateAppVersionB e = false) ∧
      (∀ e ∈ post, isCreateAppB e = false) := by
  rcases mainRun_cases inp fuel tr err h with
    ⟨e, hpkg, rfl, rfl⟩ | ⟨pr, evs, idx, hpkg, hloop, rfl, rfl⟩
  · refine ⟨preEvents_countCreateApp inp, ?_, preEvents inp, [],
      (List.append_nil _).symm, ?_, ?_⟩
    · intro happ
      simp [preEvents, happ]
    · intro e2 he2
      exact ((preEvents_mem inp e2 he2).2.2).1
    · intro e2 he2
      simp at he2
  · have hq : (postPkgEvents inp pr).countP isCreateAppB = 0 :=
      List.countP_eq_zero.mpr (fun a ha => by
        simp [(postPkgEvents_mem inp pr a ha).2.1])
    have hevs : ∀ e2 ∈ evs, isCreateAppB e2 = false := by
      intro e2 he2
      rcases waitLoopAux_mem inp.appName (environment_name inp) inp.envObs fuel false 0
          evs idx hloop e2 he2 with rfl | rfl | rfl <;> rfl
    have hevs0 : evs.countP isCreateAppB = 0 :=
      List.countP_eq_zero.mpr (fun a ha => by simp [hevs a ha])
    have hdec : isCreateAppB (envDecision inp.appName (environment_name inp)
        pr.pkgName (inp.envObs idx)) = false :=
      (envDecision_shape _ _ _ _).2.1
    refine ⟨?_, ?_, preEvents inp,
      postPkgEvents inp pr ++ evs ++
        [envDecision inp.appName (environment_name inp) pr.pkgName (inp.envObs idx)],
      by simp [List.append_assoc], ?_, ?_⟩
    · simp only [List.countP_append]
      rw [preEvents_countCreateApp inp, hq, hevs0]
      simp [List.countP_cons, hdec]
    · intro happ
      have hmem : Event.createApplication inp.appName (inp.appName ++ " Application") ∈
          preEvents inp := by
        simp [preEvents, happ]
      exact List.mem_append_left _ (List.mem_append_left _ (List.mem_append_left _ hmem))
    · intro e2 he2
      exact ((preEvents_mem inp e2 he2).2.2).1
    · intro e2 he2
      rcases List.mem_append.mp he2 with hm | hm
      · rcases List.mem_append.mp hm with hm2 | hm2
        · exact (postPkgEvents_mem inp pr e2 hm2).2.1
        · exact hevs e2 hm2
      · simp at hm
        rw [hm]
        exact hdec

/-- Witness for C2: a concrete run against an absent application and absent
environment creates the application exactly once, with the derived
description, before the version registration. -/
theorem C2_ensure_application_once_witness :
    trC2w.countP isCreateAppB = (if inpC2w.applications.isEmpty then 1 else 0) ∧
    (inpC2w.applications.isEmpty = true →
      Event.createApplication inpC2w.appName (inpC2w.appName ++ " Application") ∈ trC2w) ∧
    ∃ pre post, trC2w = pre ++ post ∧
      (∀ e ∈ pre, isCreateAppVersionB e = false) ∧
      (∀ e ∈ post, isCreateAppB e = false) :=
  C2_ensure_application_once inpC2w 1 trC2w none (by decide)

/-- C3: no environment mutation is ever issued at an in progress observation.
While every poll observes an in progress status the run never reaches the
decision, whatever the fuel, so there is no retry cap; any mutation event of
a finished run is the decision taken at a quiescent observation, carrying the
version label produced by packaging; and every wait of the run is either the
fixed ten second grace sleep or the fixed thirty second poll interval. -/
theorem C3_quiescence_before_mutation (inp : Input) (fuel : Nat) :
    (inp.jarFiles ≠ [] → (∀ j, inProgress (inp.envObs j) = true) →
      mainRun inp fuel = none) ∧
    (∀ tr err, mainRun inp fuel = some (tr, err) →
      ∀ e ∈ tr, isEnvMutationB e = true →
        ∃ idx pr,
          package_application elasticbeanstalk_files_list inp.jarFiles inp.clock =
            Except.ok pr ∧
          inProgress (inp.envObs idx) = false ∧
          e = envDecision inp.appName (environment_name inp) pr.pkgName (inp.envObs idx)) ∧
    (∀ tr err, mainRun inp fuel = some (tr, err) →
      ∀ e ∈ tr, isSleepB e = true → e = Event.sleep 10 ∨ e = Event.sleep 30) := by
  refine ⟨?_, ?_, ?_⟩
  · intro hjar hall
    cases hj : inp.jarFiles with
    | nil => exact absurd hj hjar
    | cons a rest =>
      simp [mainRun, hj, package_application,
        waitLoopAux_none_of_inProgress inp.appName (environment_name inp) inp.envObs
          hall fuel false 0]
  · intro tr err h e he hmut
    rcases mainRun_cases inp fuel tr err h with
      ⟨er, hpkg, rfl, rfl⟩ | ⟨pr, evs, idx, hpkg, hloop, rfl, rfl⟩
    · have hf := (preEvents_mem inp e he).1
      rw [hmut] at hf
      exact nomatch hf
    · rcases List.mem_append.mp he with hm | hm
      · rcases List.mem_append.mp hm with hm2 | hm2
        · rcases List.mem_append.mp hm2 with hm3 | hm3
          · have hf := (preEvents_mem inp e hm3).1
            rw [hmut] at hf
            exact nomatch hf
          · have hf := (postPkgEvents_mem inp pr e hm3).1
            rw [hmut] at hf
            exact nomatch hf
        · rcases waitLoopAux_mem inp.appName (environment_name inp) inp.envObs fuel
            false 0 evs idx hloop e hm2 with rfl | rfl | rfl <;> exact nomatch hmut
      · simp at hm
        subst hm
        exact ⟨idx, pr, hpkg,
          waitLoopAux_exit_quiescent inp.appName (environment_name inp) inp.envObs
            fuel false 0 evs idx hloop, rfl⟩
  · intro tr err h e he hsleep
    rcases mainRun_cases inp fuel tr err h with
      ⟨er, hpkg, rfl, rfl⟩ | ⟨pr, evs, idx, hpkg, hloop, rfl, rfl⟩
    · have hf := (preEvents_mem inp e he).2.1
      rw [hsleep] at hf
      exact nomatch hf
    · rcases List.mem_append.mp he with hm | hm
      · rcases List.mem_append.mp hm with hm2 | hm2
        · rcases List.mem_append.mp hm2 with hm3 | hm3
          · have hf := (preEvents_mem inp e hm3).2.1
            rw [hsleep] at hf
            exact nomatch hf
          · exact Or.inl ((postPkgEvents_mem inp pr e hm3).2.2.2 hsleep)
        · rcases waitLoopAux_mem inp.appName (environment_name inp) inp.envObs fuel
            false 0 evs idx hloop e hm2 with rfl | rfl | rfl
          · exact nomatch hsleep
          · exact Or.inr rfl
          · exact nomatch hsleep
      · simp at hm
        subst hm
        have hf := (envDecision_shape inp.appName (environment_name inp) pr.pkgName
          (inp.envObs idx)).2.2.2.1
        rw [hsleep] at hf
        exact nomatch hf

/-- Witness for C3: with a concrete artifact present and every poll observing
an in progress status, the run with fuel two has not reached the decision. -/
theorem C3_quiescence_before_mutation_witness : mainRun inpC3w 2 = none :=
  (C3_quiescence_before_mutation inpC3w 2).1 (by decide) (fun _ => rfl)

/-- C4: when the wait loop finishes, the waiting notice was printed exactly
once when the first poll observed an in progress status, as the very first
loop event, and zero times when the first observation was already quiescent,
however many polls followed. -/
theorem C4_waiting_notice_once (app env : String) (obs : Nat → List EnvDesc)
    (fuel : Nat) (evs : List Event) (idx : Nat)
    (h : waitLoopAux app env obs false 0 fuel = some (evs, idx)) :
    evs.countP isWaitingB = (if inProgress (obs 0) then 1 else 0) ∧
    (inProgress (obs 0) = true → evs.head? = some Event.printWaiting) ∧
    (inProgress (obs 0) = false → evs = []) := by
  by_cases hq : inProgress (obs 0) = true
  · cases fuel with
    | zero => simp [waitLoopAux, hq] at h
    | succ f =>
      simp only [waitLoopAux, hq, if_true] at h
      cases hrec : waitLoopAux app env obs true (0 + 1) f with
      | none => rw [hrec] at h; simp at h
      | some pair =>
        obtain ⟨evs2, idx2⟩ := pair
        rw [hrec] at h
        simp only [Option.some.injEq, Prod.mk.injEq] at h
        obtain ⟨h1, rfl⟩ := h
        rw [← h1]
        have hc := waitLoopAux_count_printed app env obs f (0 + 1) evs2 idx2 hrec
        refine ⟨?_, fun _ => rfl, fun hcontra => by rw [hq] at hcontra; exact nomatch hcontra⟩
        simp [List.countP_cons, List.countP_append, isWaitingB, hc, hq]
  · cases fuel with
    | zero =>
      simp [waitLoopAux, hq] at h
      obtain ⟨rfl, rfl⟩ := h
      exact ⟨by simp [hq], fun hcontra => absurd hcontra hq, fun _ => rfl⟩
    | succ f =>
      simp [waitLoopAux, hq] at h
      obtain ⟨rfl, rfl⟩ := h
      exact ⟨by simp [hq], fun hcontra => absurd hcontra hq, fun _ => rfl⟩

/-- Witness for C4: a concrete loop that observes an in progress status on
the first poll and a Ready status on the second prints the notice exactly
once, as its first event. -/
theorem C4_waiting_notice_once_witness :
    [Event.printWaiting, Event.sleep 30,
        Event.describeEnvironments "demo" "demo-env1"].countP isWaitingB =
      (if inProgress (obsC4w 0) then 1 else 0) ∧
    (inProgress (obsC4w 0) = true →
      [Event.printWaiting, Event.sleep 30,
        Event.describeEnvironments "demo" "demo-env1"].head? = some Event.printWaiting) ∧
    (inProgress (obsC4w 0) = false →
      [Event.printWaiting, Event.sleep 30,
        Event.describeEnvironments "demo" "demo-env1"] = ([] : List Event)) :=
  C4_waiting_notice_once "demo" "demo-env1" obsC4w 3
    [Event.printWaiting, Event.sleep 30, Event.describeEnvironments "demo" "demo-env1"]
    1 (by decide)

/-- C5 counterexample: at a concrete clock whose local reading differs from
its UTC reading, the package name is derived from the local reading, so it is
not the artifact stem followed by the UTC timestamp the claim states. -/
theorem C5_counterexample_utc_label :
    package_application elasticbeanstalk_files_list ["./build/libs/app.jar"] clockC5 =
      Except.ok ⟨"app-20261012-053000",
        ["./Dockerrun.aws.json", "./Dockerfile", "env.yaml", "./build/libs/app.jar"],
        ["Dockerrun.aws.json", "Dockerfile", "env.yaml", "build/libs/app.jar"]⟩ ∧
    "app-20261012-053000" ≠
      pySplitextRoot (pyBasename "./build/libs/app.jar") ++ "-" ++ fmtYmdHMS clockC5.utcTm := by
  exact ⟨by decide, by decide⟩

/-- C5 as amended: the package name, reused as the version label, is the
artifact base name without its extension, a dash, and the LOCAL time of the
process clock in the format YYYYMMDD-HHMMSS; and packaging is deterministic,
giving the same result for identical inputs and clock value. -/
theorem C5_local_timestamp_label (files : List String) (a : String)
    (rest : List String) (clock : Clock) (pr : PackageResult)
    (h : package_application files (a :: rest) clock = Except.ok pr) :
    pr.pkgName = pySplitextRoot (pyBasename a) ++ "-" ++ fmtYmdHMS clock.localTm ∧
    ∀ pr2, package_application files (a :: rest) clock = Except.ok pr2 → pr2 = pr := by
  simp only [package_application, Except.ok.injEq] at h
  subst h
  refine ⟨rfl, ?_⟩
  intro pr2 h2
  simp only [package_application, Except.ok.injEq] at h2
  exact h2.symm

/-- Witness for C5 as amended: a concrete packaging call produces the stem
plus local timestamp label. -/
theorem C5_local_timestamp_label_witness :
    prC5w.pkgName = pySplitextRoot (pyBasename "./build/libs/app.jar") ++ "-" ++
      fmtYmdHMS clockC5w.localTm ∧
    ∀ pr2, package_application elasticbeanstalk_files_list ["./build/libs/app.jar"]
        clockC5w = Except.ok pr2 → pr2 = prC5w :=
  C5_local_timestamp_label elasticbeanstalk_files_list "./build/libs/app.jar" []
    clockC5w prC5w (by decide)

/-- C6 counterexample: with an empty glob result packaging dies on the
unguarded out of bounds list access, an IndexError, not on the handled
ArtifactNotFoundError the claim states. -/
theorem C6_counterexample_handled_error :
    package_application elasticbeanstalk_files_list [] clockC6 =
      Except.error PyError.indexError ∧
    package_application elasticbeanstalk_files_list [] clockC6 ≠
      Except.error PyError.artifactNotFound := by
  exact ⟨by decide, by decide⟩

/-- C6 as amended: when no file matches the artifact pattern, packaging fails
with an unhandled IndexError raised by the unguarded index into the empty
glob result; when multiple files match, the first match is used and the rest
are ignored. -/
theorem C6_empty_glob_and_first_match (files : List String) (clock : Clock) :
    package_application files [] clock = Except.error PyError.indexError ∧
    ∀ a rest, package_application files (a :: rest) clock =
      package_application files [a] clock := by
  exact ⟨rfl, fun a rest => rfl⟩

/-- C7 evidence: at a concrete input whose build subprocess exits with the
non zero status one, the run does not halt: it still writes the archive,
still puts the object, and still registers the application version, because
the script never consults the exit code. -/
theorem C7_build_exit_code_ignored :
    inpC7.buildRes.exitCode ≠ 0 ∧
    ∃ tr, mainRun inpC7 1 = some (tr, none) ∧
      tr.countP isZipArchiveB = 1 ∧
      tr.countP isPutObjectB = 1 ∧
      tr.countP isCreateAppVersionB = 1 := by
  refine ⟨by decide, ((mainRun inpC7 1).getD ([], none)).1, by decide, by decide,
    by decide, by decide⟩

/-- C8: the upload step derives the bucket name exactly as the fixed prefix,
dash, region, dash, account id; it creates the bucket exactly when it does
not already exist; and the put object call, keyed by the package name with
the zip extension, is the last event, after the bucket existence has been
ensured. -/
theorem C8_upload_bucket_then_put (region account pkg : String) (bex : Bool) :
    (upload_application_version region account bex pkg).1 =
      "elasticbeanstalk-" ++ region ++ "-" ++ account ∧
    (upload_application_version region account bex pkg).2 =
      (if bex then []
        else [Event.createBucket ("elasticbeanstalk-" ++ region ++ "-" ++ account)]) ++
        [Event.putObject ("elasticbeanstalk-" ++ region ++ "-" ++ account) (pkg ++ ".zip")] ∧
    (upload_application_version region account bex pkg).2.getLast? =
      some (Event.putObject ("elasticbeanstalk-" ++ region ++ "-" ++ account)
        (pkg ++ ".zip")) ∧
    ∀ e ∈ (if bex then ([] : List Event)
        else [Event.createBucket ("elasticbeanstalk-" ++ region ++ "-" ++ account)]),
      isPutObjectB e = false := by
  cases bex with
  | true =>
    refine ⟨rfl, rfl, rfl, ?_⟩
    intro e he
    simp at he
  | false =>
    refine ⟨rfl, rfl, rfl, ?_⟩
    intro e he
    simp at he
    rw [he]
    rfl

/- Lemmas about normalization of clean relative paths: on such paths the
arcname stored in the archive is the original relative path itself, and a
leading dot slash is the only part normalization removes. -/

theorem mk_toList (p : String) : String.mk p.toList = p := by
  cases p
  rfl

theorem splitSlash_ne_nil (cs : List Char) : splitSlash cs ≠ [] := by
  cases cs with
  | nil => simp [splitSlash]
  | cons c cs =>
    simp only [splitSlash]
    split
    · simp
    · split <;> simp

theorem joinSlash_cons (c : Char) (g : List Char) (gs : List (List Char)) :
    joinSlash ((c :: g) :: gs) = c :: joinSlash (g :: gs) := by
  cases gs with
  | nil => rfl
  | cons h t => rfl

theorem joinSlash_splitSlash (cs : List Char) : joinSlash (splitSlash cs) = cs := by
  induction cs with
  | nil => rfl
  | cons c cs ih =>
    by_cases hc : c = '/'
    · subst hc
      simp only [splitSlash, if_true, eq_self_iff_true]
      obtain ⟨g, gs, hgs⟩ : ∃ g gs, splitSlash cs = g :: gs := by
        cases hs : splitSlash cs with
        | nil => exact absurd hs (splitSlash_ne_nil cs)
        | cons g gs => exact ⟨g, gs, rfl⟩
      rw [hgs]
      rw [hgs] at ih
      have hj : joinSlash ([] :: g :: gs) = '/' :: joinSlash (g :: gs) := rfl
      rw [hj, ih]
    · simp only [splitSlash, if_neg hc]
      cases hs : splitSlash cs with
      | nil => exact absurd hs (splitSlash_ne_nil cs)
      | cons g gs =>
        rw [hs] at ih
        simp only [hs]
        rw [joinSlash_cons, ih]

theorem normStep_good (acc : List (List Char)) (c : List Char)
    (hc : goodComp c = true) : normStep 0 acc c = acc ++ [c] := by
  simp only [goodComp, Bool.and_eq_true, decide_eq_true_eq] at hc
  obtain ⟨⟨h1, h2⟩, h3⟩ := hc
  have hno : ¬(c = [] ∨ c = ['.']) := by
    rintro (h | h)
    · exact h1 h
    · exact h2 h
  unfold normStep
  rw [if_neg hno, if_pos (Or.inl h3)]

theorem foldl_normStep_clean :
    ∀ (comps : List (List Char)), comps.all goodComp = true →
      ∀ acc, comps.foldl (normStep 0) acc = acc ++ comps := by
  intro comps
  induction comps with
  | nil => intro _ acc; simp
  | cons c cs ih =>
    intro h acc
    simp only [List.all_cons, Bool.and_eq_true] at h
    rw [List.foldl_cons, normStep_good acc c h.1, ih h.2, List.append_assoc]
    rfl

theorem cleanRelPath_head (p : String) (hp : cleanRelPath p = true) :
    ∃ c cs, p.toList = c :: cs ∧ c ≠ '/' := by
  cases hcs : p.toList with
  | nil =>
    exfalso
    unfold cleanRelPath at hp
    rw [hcs] at hp
    simp [splitSlash, goodComp] at hp
  | cons c cs =>
    refine ⟨c, cs, rfl, ?_⟩
    intro hc
    subst hc
    unfold cleanRelPath at hp
    rw [hcs] at hp
    simp [splitSlash, goodComp] at hp

theorem pyNormpath_clean (p : String) (hp : cleanRelPath p = true) :
    pyNormpath p = p := by
  obtain ⟨c, cs, hcs, hcslash⟩ := cleanRelPath_head p hp
  unfold cleanRelPath at hp
  simp only [pyNormpath]
  rw [hcs]
  have htake : ¬((c :: cs).take 1 = ['/']) := by
    simp only [List.take_succ_cons, List.take_zero]
    intro hcontra
    exact hcslash (by injection hcontra)
  rw [if_neg htake]
  rw [hcs] at hp
  rw [foldl_normStep_clean (splitSlash (c :: cs)) hp []]
  rw [List.nil_append, List.replicate_zero, List.nil_append]
  rw [joinSlash_splitSlash]
  rw [if_neg (by simp)]
  rw [← hcs, mk_toList]

theorem zipArcname_clean (p : String) (hp : cleanRelPath p = true) :
    zipArcname p = p := by
  obtain ⟨c, cs, hcs, hcslash⟩ := cleanRelPath_head p hp
  unfold zipArcname
  rw [pyNormpath_clean p hp, hcs]
  rw [List.dropWhile_cons, if_neg (by simpa using hcslash)]
  rw [← hcs, mk_toList]

theorem splitSlash_dotSlash (cs : List Char) :
    splitSlash ('.' :: '/' :: cs) = ['.'] :: splitSlash cs := by
  simp [splitSlash]

theorem pyNormpath_dotSlash (p : String) (hp : cleanRelPath p = true) :
    pyNormpath ("./" ++ p) = p := by
  obtain ⟨c, cs, hcs, hcslash⟩ := cleanRelPath_head p hp
  unfold cleanRelPath at hp
  have hdata : ("./" ++ p).toList = '.' :: '/' :: p.toList := by
    show ("./" ++ p).data = '.' :: '/' :: p.data
    rw [String.data_append]
    rfl
  simp only [pyNormpath]
  rw [hdata]
  have htake : ¬(('.' :: '/' :: p.toList).take 1 = ['/']) := by
    simp only [List.take_succ_cons, List.take_zero]
    decide
  rw [if_neg htake]
  rw [splitSlash_dotSlash]
  rw [List.foldl_cons]
  have hstep : normStep 0 [] ['.'] = [] := by decide
  rw [hstep]
  rw [foldl_normStep_clean (splitSlash p.toList) hp []]
  rw [List.nil_append, List.replicate_zero, List.nil_append]
  rw [joinSlash_splitSlash]
  rw [hcs]
  rw [if_neg (by simp)]
  rw [← hcs, mk_toList]

theorem zipArcname_dotSlash (p : String) (hp : cleanRelPath p = true) :
    zipArcname ("./" ++ p) = p := by
  obtain ⟨c, cs, hcs, hcslash⟩ := cleanRelPath_head p hp
  unfold zipArcname
  rw [pyNormpath_dotSlash p hp, hcs]
  rw [List.dropWhile_cons, if_neg (by simpa using hcslash)]
  rw [← hcs, mk_toList]

/-- C9: a run whose glob locates exactly one artifact, at a clean relative
path under the build output directory, produces an archive whose entries are
exactly the three fixed descriptor files and that artifact, each stored at
its original relative path (the leading dot slash removed by normalization),
so nothing is flattened and nothing else is included. -/
theorem C9_archive_entries (r : String) (clock : Clock) (pr : PackageResult)
    (hr : cleanRelPath r = true)
    (h : package_application elasticbeanstalk_files_list ["./" ++ r] clock =
      Except.ok pr) :
    pr.zipEntries = ["Dockerrun.aws.json", "Dockerfile", "env.yaml", r] ∧
    pr.zipEntries.length = 4 := by
  simp only [package_application, Except.ok.injEq] at h
  subst h
  have h1 : zipArcname "./Dockerrun.aws.json" = "Dockerrun.aws.json" := by decide
  have h2 : zipArcname "./Dockerfile" = "Dockerfile" := by decide
  have h3 : zipArcname "env.yaml" = "env.yaml" := by decide
  constructor
  · simp [elasticbeanstalk_files_list, h1, h2, h3, zipArcname_dotSlash r hr]
  · simp [elasticbeanstalk_files_list]

/-- Witness for C9: a concrete packaging call on one artifact under the build
output directory produces exactly the four entries at their relative paths. -/
theorem C9_archive_entries_witness :
    prC9w.zipEntries = ["Dockerrun.aws.json", "Dockerfile", "env.yaml",
      "build/libs/demo-0.0.1.jar"] ∧
    prC9w.zipEntries.length = 4 :=
  C9_archive_entries "build/libs/demo-0.0.1.jar" clockC9w prC9w (by decide) (by decide)

/-- C10: package_application appends the located artifact to the module level
descriptor list, so packaging is not idempotent within a process: after any
number of calls the list holds the three fixed descriptors followed by one
artifact path per call, its length is three plus the number of calls, and the
archive written by the next call contains the arcname of every artifact
located by it and by all earlier calls. -/
theorem C10_files_list_mutation (artifacts : Nat → String) (clock : Clock) (n : Nat) :
    filesAfterCalls artifacts clock n =
      elasticbeanstalk_files_list ++ (List.range n).map artifacts ∧
    (filesAfterCalls artifacts clock n).length = 3 + n ∧
    (∀ i, i ≤ n → zipArcname (artifacts i) ∈ callEntries artifacts clock n) := by
  have hmain : ∀ m, filesAfterCalls artifacts clock m =
      elasticbeanstalk_files_list ++ (List.range m).map artifacts := by
    intro m
    induction m with
    | zero => simp [filesAfterCalls]
    | succ k ih =>
      simp only [filesAfterCalls, package_application]
      rw [ih, List.range_succ, List.map_append, List.append_assoc]
      simp
  refine ⟨hmain n, ?_, ?_⟩
  · rw [hmain n]
    simp [elasticbeanstalk_files_list]
    omega
  · intro i hi
    have hmem : artifacts i ∈ filesAfterCalls artifacts clock n ++ [artifacts n] := by
      rcases Nat.lt_or_ge i n with hlt | hge
      · apply List.mem_append_left
        rw [hmain n]
        apply List.mem_append_right
        exact List.mem_map_of_mem artifacts (List.mem_range.mpr hlt)
      · have hieq : i = n := le_antisymm hi hge
        subst hieq
        exact List.mem_append_right _ (by simp)
    have hmap : zipArcname (artifacts i) ∈
        (filesAfterCalls artifacts clock n ++ [artifacts n]).map zipArcname :=
      List.mem_map_of_mem zipArcname hmem
    simpa [callEntries, package_application] using hmap

/-- Witness for C10: after one earlier call in the same process, the archive
written by the second call still contains the artifact located by the first
call. -/
theorem C10_files_list_mutation_witness :
    zipArcname (artifactsW 0) ∈ callEntries artifactsW clockC10w 1 :=
  (C10_files_list_mutation artifactsW clockC10w 1).2.2 0 (by decide)
